import Mathlib

/-!
Verification of the rollout-storage and behaviour-cloning training-step
subsystem of `rl-rationale-gen`.

The embedding translates the Python sources
`src/lmnav/common/rollout_storage.py` and `src/lmnav/bc_train.py` into
executable Lean definitions:

* a `RolloutStorage` state record whose buffers are functions
  `environment → slot → value` (tensor cell values are abstracted to one
  value per environment and time slot, since the claims never look inside
  a frame);
* Python integer indexing `t[:, i]` (including negative indices and the
  `IndexError` on out-of-range indices) is modelled by `pyIndex`;
* the training-step minibatch/gradient-accumulation loop is modelled by
  the trace of backward / optimizer-step / zero-grad events it emits;
* mask construction and padding are modelled over per-timestep lists;
* checkpoint save/load is modelled over a record of the pieces the code
  serializes.
-/

namespace LmNav

/-- Resolution of a Python integer index `i` into a dimension of size
`len`: non-negative indices must satisfy `i < len`, negative indices are
offset by `len`; anything else raises `IndexError` (modelled as `none`). -/
def pyIndex (len : Nat) (i : Int) : Option Nat :=
  if 0 ≤ i then
    (if i < (len : Int) then some i.toNat else none)
  else
    (if 0 ≤ i + (len : Int) then some (i + (len : Int)).toNat else none)

/-- Column assignment `buf[:, j] = v`: every environment's slot `j` is
overwritten, all other slots are untouched. -/
def setCol {α : Type} (f : Nat → Nat → α) (j : Nat) (v : Nat → α) : Nat → Nat → α :=
  fun e s => if s = j then v e else f e s

/-- State of `RolloutStorage` (`src/lmnav/common/rollout_storage.py`).
`rgbs`, `goals`, `actions`, `dones`, `rewards` have second-dimension size
`max_steps + 1`; `successes` has size `max_steps`.  `device` records which
device the tensors reside on. -/
structure RolloutStorage where
  num_envs : Nat
  max_steps : Nat
  rgbs : Nat → Nat → Int
  goals : Nat → Nat → Int
  actions : Nat → Nat → Int
  dones : Nat → Nat → Bool
  successes : Nat → Nat → Bool
  rewards : Nat → Nat → Int
  current_step_idx : Int
  device : String

/-- `RolloutStorage.__init__`: zeroed buffers, cursor `-1`. -/
def RolloutStorage.mk0 (num_envs max_steps : Nat) (device : String) : RolloutStorage :=
  { num_envs := num_envs
    max_steps := max_steps
    rgbs := fun _ _ => 0
    goals := fun _ _ => 0
    actions := fun _ _ => 0
    dones := fun _ _ => false
    successes := fun _ _ => false
    rewards := fun _ _ => 0
    current_step_idx := -1
    device := device }

/-- A mutation step: the state after the statements executed so far,
plus the exception (if any) that aborted execution. -/
abbrev StorageStep := RolloutStorage × Option String

/-- Sequencing of Python statements: once an exception is raised the
remaining statements do not run, but earlier mutations persist. -/
def andThen (x : StorageStep) (f : RolloutStorage → StorageStep) : StorageStep :=
  match x with
  | (st, some e) => (st, some e)
  | (st, none) => f st

/-- `self.rgbs[:, self.current_step_idx + 1] = next_rgbs` and the same
for `goals` (both dimensions have size `max_steps + 1`, both statements
use the same index, so they fail or succeed together). -/
def writeObs (st : RolloutStorage) (next_rgbs next_goals : Nat → Int) : StorageStep :=
  match pyIndex (st.max_steps + 1) (st.current_step_idx + 1) with
  | none => (st, some "IndexError: rgbs/goals")
  | some j =>
      ({ st with rgbs := setCol st.rgbs j next_rgbs
                 goals := setCol st.goals j next_goals }, none)

/-- `if dones is not None: self.dones[:, self.current_step_idx] = dones`. -/
def writeDones (st : RolloutStorage) (v : Option (Nat → Bool)) : StorageStep :=
  match v with
  | none => (st, none)
  | some d =>
      match pyIndex (st.max_steps + 1) st.current_step_idx with
      | none => (st, some "IndexError: dones")
      | some j => ({ st with dones := setCol st.dones j d }, none)

/-- `if successes is not None: self.successes[:, self.current_step_idx] = successes`
(the `successes` buffer has second-dimension size `max_steps`, not `max_steps + 1`). -/
def writeSuccesses (st : RolloutStorage) (v : Option (Nat → Bool)) : StorageStep :=
  match v with
  | none => (st, none)
  | some sc =>
      match pyIndex st.max_steps st.current_step_idx with
      | none => (st, some "IndexError: successes")
      | some j => ({ st with successes := setCol st.successes j sc }, none)

/-- `if rewards is not None: self.rewards[:, self.current_step_idx] = rewards`. -/
def writeRewards (st : RolloutStorage) (v : Option (Nat → Int)) : StorageStep :=
  match v with
  | none => (st, none)
  | some r =>
      match pyIndex (st.max_steps + 1) st.current_step_idx with
      | none => (st, some "IndexError: rewards")
      | some j => ({ st with rewards := setCol st.rewards j r }, none)

/-- `if actions is not None: self.actions[:, self.current_step_idx] = actions`. -/
def writeActions (st : RolloutStorage) (v : Option (Nat → Int)) : StorageStep :=
  match v with
  | none => (st, none)
  | some a =>
      match pyIndex (st.max_steps + 1) st.current_step_idx with
      | none => (st, some "IndexError: actions")
      | some j => ({ st with actions := setCol st.actions j a }, none)

/-- `RolloutStorage.insert` (rollout_storage.py lines 40-62), in source
statement order: observations at `current_step_idx + 1`, then the
optional `dones`, `successes`, `rewards`, `actions` at
`current_step_idx`, then `current_step_idx += 1`. -/
def RolloutStorage.insert (st : RolloutStorage)
    (next_rgbs next_goals : Nat → Int)
    (dones_a : Option (Nat → Bool)) (actions_a : Option (Nat → Int))
    (rewards_a : Option (Nat → Int)) (successes_a : Option (Nat → Bool)) :
    StorageStep :=
  andThen (writeObs st next_rgbs next_goals) fun st1 =>
  andThen (writeDones st1 dones_a) fun st2 =>
  andThen (writeSuccesses st2 successes_a) fun st3 =>
  andThen (writeRewards st3 rewards_a) fun st4 =>
  andThen (writeActions st4 actions_a) fun st5 =>
  ({ st5 with current_step_idx := st5.current_step_idx + 1 }, none)

/-- `RolloutStorage.reset` (rollout_storage.py lines 64-68):
`self.rgbs[:, 0] = self.rgbs[:, -1]` (index `-1` of a dimension of size
`max_steps + 1` resolves to `max_steps`), same for `goals`, then
`current_step_idx = 0`. -/
def RolloutStorage.reset (st : RolloutStorage) : RolloutStorage :=
  { st with
    rgbs := setCol st.rgbs 0 (fun e => st.rgbs e st.max_steps)
    goals := setCol st.goals 0 (fun e => st.goals e st.max_steps)
    current_step_idx := 0 }

/-- `RolloutStorage.to_cpu` (rollout_storage.py lines 114-118): the body
is `map(lambda t: t.cpu(), (...))` whose resulting lazy map object is
immediately discarded, so the lambdas never run; and `t.cpu()` would in
any case return a copy without rebinding the attributes.  The method
therefore has no observable effect on the state, its device included. -/
def RolloutStorage.to_cpu (st : RolloutStorage) : RolloutStorage :=
  st

/-- A storage mid-collection: cursor `0`, distinguishable buffer contents,
buffers resident on an accelerator device. -/
def sampleStorage : RolloutStorage :=
  { num_envs := 2
    max_steps := 3
    rgbs := fun e s => e + 10 * s
    goals := fun e s => e + 100 * s
    actions := fun e s => e + 2 * s
    dones := fun _ s => s = 1
    successes := fun _ _ => false
    rewards := fun e s => e - s
    current_step_idx := 0
    device := "cuda:0" }

/-- `torch.where(self.dones[b])[0].tolist()`: the indices of the `True`
entries of environment `b`'s done row, in increasing order.  The row has
`max_steps + 1` slots, so the scan covers `[0, max_steps]`. -/
def doneIndices (n : Nat) (d : Nat → Bool) : List Nat :=
  (List.range (n + 1)).filter d

/-- The boundary list of `generate_samples` (rollout_storage.py lines
87-91): `ends = [-1] + done_indices`, then append `max_steps - 1` when
`ends[-1] != max_steps - 1`. -/
def boundaries (n : Nat) (d : Nat → Bool) : List Int :=
  let ends : List Int := (-1 : Int) :: (doneIndices n d).map (fun (s : Nat) => (s : Int))
  if ends.getLast (List.cons_ne_nil _ _) ≠ (n : Int) - 1 then
    ends ++ [(n : Int) - 1]
  else
    ends

/-- Consecutive pairs of a list: `[(l[0],l[1]), (l[1],l[2]), ...]` — the
comprehension `[(ends[i], ends[i+1]) for i in range(len(ends)-1)]`. -/
def chainPairs (l : List Int) : List (Int × Int) :=
  l.zip l.tail

/-- The per-environment segment list of `generate_samples`: a pair
`(prev, cur)` stands for the Python `slice(prev + 1, cur + 1)`, i.e. the
half-open index range `(prev, cur]`. -/
def segmentsOf (n : Nat) (d : Nat → Bool) : List (Int × Int) :=
  chainPairs (boundaries n d)

/-- Resolution of one endpoint of a Python `slice` against a dimension
of size `len` (negative endpoints offset by `len`, then clamped). -/
def sliceBound (len : Nat) (i : Int) : Nat :=
  if i < 0 then (if 0 ≤ i + (len : Int) then (i + (len : Int)).toNat else 0)
  else min i.toNat len

/-- `row[a:b]` for a buffer row of length `len`. -/
def rowSlice {α : Type} (f : Nat → α) (len : Nat) (a b : Int) : List α :=
  (List.range (sliceBound len b - sliceBound len a)).map
    (fun k => f (sliceBound len a + k))

/-- The segments of environment `b` of a storage, as computed by
`generate_samples`. -/
def segmentsFor (st : RolloutStorage) (b : Nat) : List (Int × Int) :=
  segmentsOf st.max_steps (st.dones b)

/-- One sample: the six buffer rows of environment `b` sliced by
`slice(seg.1 + 1, seg.2 + 1)`, in the source's tuple order
`(rgbs, goals, actions, rewards, dones, successes)`. -/
def sampleTuple (st : RolloutStorage) (b : Nat) (seg : Int × Int) :
    List Int × List Int × List Int × List Int × List Bool × List Bool :=
  (rowSlice (st.rgbs b) (st.max_steps + 1) (seg.1 + 1) (seg.2 + 1),
   rowSlice (st.goals b) (st.max_steps + 1) (seg.1 + 1) (seg.2 + 1),
   rowSlice (st.actions b) (st.max_steps + 1) (seg.1 + 1) (seg.2 + 1),
   rowSlice (st.rewards b) (st.max_steps + 1) (seg.1 + 1) (seg.2 + 1),
   rowSlice (st.dones b) (st.max_steps + 1) (seg.1 + 1) (seg.2 + 1),
   rowSlice (st.successes b) st.max_steps (seg.1 + 1) (seg.2 + 1))

/-- `RolloutStorage.generate_samples` (rollout_storage.py lines 70-112):
the flat per-environment, per-segment sample list (the source finally
transposes it with `zip(*samples)` into one sequence per buffer; the
claims quantify over the samples, so the transposition is left out). -/
def RolloutStorage.generate_samples (st : RolloutStorage) :
    List (List Int × List Int × List Int × List Int × List Bool × List Bool) :=
  (List.range st.num_envs).flatMap
    (fun b => (segmentsFor st b).map (sampleTuple st b))

/-! ### Training step (`src/lmnav/bc_train.py`) -/

/-- `validate_config` (bc_train.py lines 57-67), in Python evaluation
order: `num_minibatches = batch_size // minibatch_size` raises
`ZeroDivisionError` when `minibatch_size == 0`; then the two asserts, the
second of which evaluates `num_minibatches % num_grad_accums` and hence
raises when `num_grad_accums == 0`.  `initialize_train` (line 92) calls
this before doing anything else. -/
def validate_config (batch_size minibatch_size num_grad_accums : Nat) :
    Except String Unit :=
  if minibatch_size = 0 then
    Except.error "ZeroDivisionError"
  else if batch_size % minibatch_size ≠ 0 then
    Except.error "AssertionError: batch must be evenly partitioned into minibatch sizes"
  else if num_grad_accums = 0 then
    Except.error "ZeroDivisionError"
  else if (batch_size / minibatch_size) % num_grad_accums ≠ 0 then
    Except.error "AssertionError: grad accums must divide num_minibatches equally"
  else
    Except.ok ()

/-- Python `range(0, stop, step)` for a positive step. -/
def pyRangeStep (stop step : Nat) : List Nat :=
  (List.range ((stop + step - 1) / step)).map (fun i => i * step)

/-- Observable events of the `train_bc_step` minibatch loop (bc_train.py
lines 240-274): a backward pass for a minibatch (synchronized across
workers or run under `no_sync`), the optional gradient clipping, the
optimizer step, and the gradient zeroing. -/
inductive TrainEvent where
  | backward (mb_idx : Nat) (synced : Bool)
  | clipGrad
  | optimStep
  | zeroGrad
deriving DecidableEq, Repr

/-- `TrainEvent.backward` recognizer. -/
def isBackward : TrainEvent → Bool
  | TrainEvent.backward _ _ => true
  | _ => false

/-- Synchronized (all-reducing) backward recognizer. -/
def isSyncedBackward : TrainEvent → Bool
  | TrainEvent.backward _ true => true
  | _ => false

/-- One gradient-accumulation chunk of `train_bc_step`: the inner
`for g in range(num_grad_accums)` loop processes minibatches
`mb, mb+1, ..., mb+num_grad_accums-1`, running all but the last under
`self.agent.no_sync()`; then clipping (when `max_grad_norm` is set),
`self.optim.step()` and `self.optim.zero_grad()`. -/
def chunkEvents (mb num_grad_accums : Nat) (clip : Bool) : List TrainEvent :=
  ((List.range num_grad_accums).map
      (fun g => TrainEvent.backward (mb + g) (!(decide (g < num_grad_accums - 1)))))
    ++ (if clip then [TrainEvent.clipGrad] else [])
    ++ [TrainEvent.optimStep, TrainEvent.zeroGrad]

/-- The event trace of one `train_bc_step` batch: the outer loop
`for mb in range(0, num_minibatches, num_grad_accums)` runs one chunk per
iteration. -/
def train_bc_step_events (num_minibatches num_grad_accums : Nat) (clip : Bool) :
    List TrainEvent :=
  (pyRangeStep num_minibatches num_grad_accums).flatMap
    (fun mb => chunkEvents mb num_grad_accums clip)

/-- The boolean mask built in `train_bc_step` (bc_train.py line 249):
`torch.cat([torch.ones(L), torch.zeros(T - L)]).bool()` for an episode
slice of length `L`. -/
def mask_t (T L : Nat) : List Bool :=
  List.replicate L true ++ List.replicate (T - L) false

/-- Trailing zero padding of a per-timestep sequence to length `T`
(bc_train.py lines 251 and 253): `F.pad(t, (..., T - t.shape[0]),
'constant', 0)` pads the time dimension at the end with zeros; a frame is
abstracted to one value per timestep. -/
def pad_seq (T : Nat) (xs : List Int) : List Int :=
  xs ++ List.replicate (T - xs.length) 0

/-! ### Checkpointing (`src/lmnav/bc_train.py` lines 284-328) -/

/-- The cumulative statistics dictionary
`{'step': ..., 'epoch': ..., 'metrics/total_frames': ...}`. -/
structure CumStats where
  step : Nat
  epoch : Nat
  total_frames : Nat
deriving DecidableEq, Repr

/-- The trainer state touched by `save_checkpoint`/`load_checkpoint`:
named model parameters `(name, value, requires_grad)` plus the opaque
optimizer / lr-scheduler / sampler states, the config snapshot, and the
step/epoch counters. -/
structure TrainerState where
  params : List (String × Int × Bool)
  optim_state : Int
  lr_sched_state : Int
  sampler_state : Int
  config_snapshot : Int
  step : Nat
  epoch : Nat
  cumstats : CumStats

/-- The serialized checkpoint `save_obj` of bc_train.py lines 312-319. -/
structure Checkpoint where
  model : List (String × Int)
  optimizer : Int
  lr_sched : Int
  sampler : Int
  config : Int
  stats : CumStats

/-- `save_checkpoint` (bc_train.py lines 301-319): the model state dict
minus every key whose parameter has `requires_grad == False`, plus the
optimizer/scheduler/sampler states, config and cumulative stats. -/
def save_checkpoint (tr : TrainerState) : Checkpoint :=
  { model := (tr.params.filter (fun q => q.2.2)).map (fun q => (q.1, q.2.1))
    optimizer := tr.optim_state
    lr_sched := tr.lr_sched_state
    sampler := tr.sampler_state
    config := tr.config_snapshot
    stats := tr.cumstats }

/-- `load_state_dict(..., strict=False)`: every model parameter whose
key occurs in the dict takes the dict's value; missing keys keep the
parameter's current value; extra dict keys are ignored. -/
def load_state_dict_nonstrict (params : List (String × Int × Bool))
    (sd : List (String × Int)) : List (String × Int × Bool) :=
  params.map (fun p =>
    match List.lookup p.1 sd with
    | some v => (p.1, v, p.2.2)
    | none => p)

/-- `load_checkpoint` (bc_train.py lines 284-298): non-strict model
weight load, strict optimizer/scheduler/sampler restore, cumulative
stats restored verbatim, then `step`/`epoch` rehydrated from the stats. -/
def load_checkpoint (tr : TrainerState) (ck : Checkpoint) : TrainerState :=
  { tr with
    params := load_state_dict_nonstrict tr.params ck.model
    optim_state := ck.optimizer
    lr_sched_state := ck.lr_sched
    sampler_state := ck.sampler
    cumstats := ck.stats
    step := ck.stats.step
    epoch := ck.stats.epoch }

/-- A trainer with a frozen visual encoder parameter, mid-run. -/
def sampleTrainer : TrainerState :=
  { params := [("llama_proj.weight", 5, true), ("vis_encoder.blocks.0", 7, false),
               ("lora.A", 9, true)]
    optim_state := 11
    lr_sched_state := 13
    sampler_state := 17
    config_snapshot := 19
    step := 3
    epoch := 1
    cumstats := { step := 3, epoch := 1, total_frames := 4096 } }

lemma pyIndex_of_nonneg {len : Nat} {i : Int} (h0 : 0 ≤ i) (h1 : i < (len : Int)) :
    pyIndex len i = some i.toNat := by
  unfold pyIndex
  rw [if_pos h0, if_pos h1]

lemma pyIndex_of_neg {len : Nat} {i : Int} (h0 : i < 0) (h1 : 0 ≤ i + (len : Int)) :
    pyIndex len i = some (i + (len : Int)).toNat := by
  unfold pyIndex
  rw [if_neg (by omega), if_pos h1]

lemma pyIndex_oob_high {len : Nat} {i : Int} (h1 : (len : Int) ≤ i) :
    pyIndex len i = none := by
  unfold pyIndex
  rw [if_pos (by omega), if_neg (by omega)]

lemma chainPairs_nil : chainPairs [] = [] := rfl

lemma chainPairs_single (a : Int) : chainPairs [a] = [] := rfl

lemma chainPairs_cons₂ (a b : Int) (t : List Int) :
    chainPairs (a :: b :: t) = (a, b) :: chainPairs (b :: t) := rfl

lemma chainPairs_length (l : List Int) : (chainPairs l).length = l.length - 1 := by
  simp [chainPairs, List.length_zip]

lemma mem_chainPairs {l : List Int} {p : Int × Int} (h : p ∈ chainPairs l) :
    p.1 ∈ l ∧ p.2 ∈ l := by
  obtain ⟨x, y⟩ := p
  have h2 := List.of_mem_zip h
  exact ⟨h2.1, (List.tail_sublist l).subset h2.2⟩

lemma sorted_head_le_getLast {b : Int} {l : List Int}
    (h : (b :: l).Pairwise (· < ·)) :
    b ≤ (b :: l).getLast (List.cons_ne_nil b l) := by
  cases l with
  | nil => simp
  | cons c t =>
      rw [List.getLast_cons (List.cons_ne_nil c t)]
      have hmem := List.getLast_mem (List.cons_ne_nil c t)
      have hb := (List.pairwise_cons.mp h).1 _ hmem
      omega

/-- Interval union of the consecutive pairs of a strictly increasing
list: `j` lies in some half-open piece `(p.1, p.2]` exactly when it lies
in `(head, last]`. -/
lemma chainPairs_cover (j : Int) :
    ∀ (l : List Int) (a : Int), (a :: l).Pairwise (· < ·) →
      ((∃ p ∈ chainPairs (a :: l), p.1 < j ∧ j ≤ p.2) ↔
        (a < j ∧ j ≤ (a :: l).getLast (List.cons_ne_nil a l)))
  | [], a, _ => by
      simp only [chainPairs_single, List.getLast_singleton]
      constructor
      · rintro ⟨p, hp, -⟩
        simp at hp
      · rintro ⟨h1, h2⟩
        omega
  | b :: t, a, hs => by
      have hs' : (b :: t).Pairwise (· < ·) := hs.of_cons
      have hab : a < b := (List.pairwise_cons.mp hs).1 b (by simp)
      have ih := chainPairs_cover j t b hs'
      rw [chainPairs_cons₂, List.getLast_cons (List.cons_ne_nil b t)]
      constructor
      · rintro ⟨p, hp, h1, h2⟩
        rcases List.mem_cons.mp hp with rfl | hp'
        · refine ⟨h1, le_trans h2 (sorted_head_le_getLast hs')⟩
        · have := ih.mp ⟨p, hp', h1, h2⟩
          exact ⟨by omega, this.2⟩
      · rintro ⟨h1, h2⟩
        by_cases hjb : j ≤ b
        · exact ⟨(a, b), by simp, h1, hjb⟩
        · obtain ⟨p, hp, hp1, hp2⟩ := ih.mpr ⟨by omega, h2⟩
          exact ⟨p, List.mem_cons_of_mem _ hp, hp1, hp2⟩

/-- Consecutive pairs of a strictly increasing list are pairwise
non-overlapping: an earlier piece ends no later than a later one starts. -/
lemma chainPairs_disjoint :
    ∀ l : List Int, l.Pairwise (· < ·) →
      (chainPairs l).Pairwise (fun p q : Int × Int => p.2 ≤ q.1)
  | [], _ => by simp [chainPairs_nil]
  | [a], _ => by simp [chainPairs_single]
  | a :: b :: t, hs => by
      have hs' : (b :: t).Pairwise (· < ·) := hs.of_cons
      rw [chainPairs_cons₂]
      refine List.pairwise_cons.mpr ⟨?_, chainPairs_disjoint (b :: t) hs'⟩
      intro q hq
      have hq1 := (mem_chainPairs hq).1
      rcases List.mem_cons.mp hq1 with rfl | hq1'
      · exact le_refl _
      · exact le_of_lt ((List.pairwise_cons.mp hs').1 _ hq1')

/-- Consecutive pairs are chained: each piece ends where the next one
starts. -/
lemma chainPairs_chained :
    ∀ l : List Int, List.Chain' (fun p q : Int × Int => p.2 = q.1) (chainPairs l)
  | [] => by simp [chainPairs_nil]
  | [a] => by simp [chainPairs_single]
  | a :: b :: t => by
      rw [chainPairs_cons₂]
      refine List.chain'_cons'.mpr ⟨?_, chainPairs_chained (b :: t)⟩
      intro q hq
      cases t with
      | nil => simp [chainPairs_single] at hq
      | cons c t' =>
          rw [chainPairs_cons₂] at hq
          simp at hq
          rw [← hq]

/-- In a strictly increasing list, a member that bounds every element
from above is the last element. -/
lemma getLast_of_sorted_max :
    ∀ (l : List Nat), l.Pairwise (· < ·) → ∀ m : Nat, m ∈ l →
      (∀ x ∈ l, x ≤ m) → ∀ h : l ≠ [], l.getLast h = m
  | [], _, m, hm, _, _ => by simp at hm
  | [a], _, m, hm, _, _ => by
      simp at hm
      simp [hm]
  | a :: b :: t, hs, m, hm, hmax, _ => by
      have hs' : (b :: t).Pairwise (· < ·) := hs.of_cons
      have hab : a < b := (List.pairwise_cons.mp hs).1 b (by simp)
      rw [List.getLast_cons (List.cons_ne_nil b t)]
      refine getLast_of_sorted_max (b :: t) hs' m ?_ ?_ (List.cons_ne_nil b t)
      · rcases List.mem_cons.mp hm with rfl | hm'
        · have := hmax b (by simp)
          omega
        · exact hm'
      · intro x hx
        exact hmax x (List.mem_cons_of_mem _ hx)

lemma doneIndices_sorted (n : Nat) (d : Nat → Bool) :
    (doneIndices n d).Pairwise (· < ·) :=
  (List.pairwise_lt_range (n + 1)).sublist (List.filter_sublist _)

lemma mem_doneIndices {n : Nat} {d : Nat → Bool} (hd : d n = false) (s : Nat) :
    s ∈ doneIndices n d ↔ (s < n ∧ d s = true) := by
  unfold doneIndices
  rw [List.mem_filter, List.mem_range]
  constructor
  · rintro ⟨h1, h2⟩
    refine ⟨?_, h2⟩
    rcases Nat.lt_or_ge s n with h | h
    · exact h
    · have : s = n := by omega
      rw [this] at h2
      rw [hd] at h2
      exact absurd h2 (by simp)
  · rintro ⟨h1, h2⟩
    exact ⟨by omega, h2⟩

lemma getLast_map_ofNat (l : List Nat) (h : l ≠ [])
    (h' : l.map (fun (s : Nat) => (s : Int)) ≠ []) :
    (l.map (fun (s : Nat) => (s : Int))).getLast h' = (l.getLast h : Int) := by
  have h1 : some ((l.map (fun (s : Nat) => (s : Int))).getLast h')
      = some ((l.getLast h : Int)) := by
    rw [← List.getLast?_eq_getLast _ h', List.getLast?_map,
      List.getLast?_eq_getLast l h, Option.map_some']
  exact Option.some.inj h1

lemma getLast_cons_congr {l l' : List Int} (a : Int) (h : l = l') :
    (a :: l).getLast (List.cons_ne_nil a l) = (a :: l').getLast (List.cons_ne_nil a l') := by
  subst h
  rfl

/-- The `ends[-1]` value tested by the source equals `max_steps - 1`
exactly when `max_steps - 1` is a done index (the done indices are
strictly increasing, so the last one is the largest). -/
lemma ends_getLast_eq_iff (n : Nat) (d : Nat → Bool) (hn : 1 ≤ n) (hd : d n = false) :
    ((-1 : Int) :: (doneIndices n d).map (fun (s : Nat) => (s : Int))).getLast
        (List.cons_ne_nil _ _) = (n : Int) - 1
      ↔ n - 1 ∈ doneIndices n d := by
  by_cases hds : doneIndices n d = []
  · have hmap : (doneIndices n d).map (fun (s : Nat) => (s : Int)) = [] := by
      rw [hds]
      rfl
    rw [getLast_cons_congr (-1) hmap]
    simp [hds]
    omega
  · have hmapne : (doneIndices n d).map (fun (s : Nat) => (s : Int)) ≠ [] := by
      intro hc
      exact hds (List.map_eq_nil_iff.mp hc)
    have hglast : ((-1 : Int) :: (doneIndices n d).map (fun (s : Nat) => (s : Int))).getLast
        (List.cons_ne_nil _ _) = ((doneIndices n d).getLast hds : Int) := by
      rw [List.getLast_cons hmapne, getLast_map_ofNat _ hds hmapne]
    have hlt : ∀ s ∈ doneIndices n d, s < n :=
      fun s hs => ((mem_doneIndices hd s).mp hs).1
    rw [hglast]
    constructor
    · intro hc
      have hlastmem := List.getLast_mem hds
      have := hlt _ hlastmem
      have hval : (doneIndices n d).getLast hds = n - 1 := by omega
      exact hval ▸ hlastmem
    · intro hmem
      have hmax : ∀ x ∈ doneIndices n d, x ≤ n - 1 := by
        intro x hx
        have := hlt x hx
        omega
      have hlastval : (doneIndices n d).getLast hds = n - 1 :=
        getLast_of_sorted_max _ (doneIndices_sorted n d) (n - 1) hmem hmax hds
      rw [hlastval]
      omega

/-- The boundary list, written as `-1` followed by the done indices and
the conditionally appended final boundary: the source's
`ends[-1] != max_steps - 1` test is equivalent to `max_steps - 1` not
being a done index. -/
lemma boundaries_eq (n : Nat) (d : Nat → Bool) (hn : 1 ≤ n) (hd : d n = false) :
    boundaries n d
      = (-1 : Int) ::
          ((doneIndices n d).map (fun (s : Nat) => (s : Int))
            ++ (if n - 1 ∈ doneIndices n d then [] else [((n : Int) - 1)])) := by
  show (if _ ≠ _ then _ else _) = _
  split
  case isTrue h =>
    have hmem : ¬ (n - 1 ∈ doneIndices n d) :=
      fun hc => h ((ends_getLast_eq_iff n d hn hd).mpr hc)
    rw [if_neg hmem]
    simp
  case isFalse h =>
    have hmem : n - 1 ∈ doneIndices n d :=
      (ends_getLast_eq_iff n d hn hd).mp (not_not.mp h)
    rw [if_pos hmem]
    simp

lemma boundaries_sorted (n : Nat) (d : Nat → Bool) (hn : 1 ≤ n) (hd : d n = false) :
    (boundaries n d).Pairwise (· < ·) := by
  rw [boundaries_eq n d hn hd]
  have hlt : ∀ s ∈ doneIndices n d, s < n :=
    fun s hs => ((mem_doneIndices hd s).mp hs).1
  have hsorti : ((doneIndices n d).map (fun (s : Nat) => (s : Int))).Pairwise (· < ·) :=
    (doneIndices_sorted n d).map _ (fun a b h => by exact_mod_cast h)
  refine List.pairwise_cons.mpr ⟨?_, ?_⟩
  · intro x hx
    rcases List.mem_append.mp hx with hx' | hx'
    · obtain ⟨s, -, rfl⟩ := List.mem_map.mp hx'
      omega
    · by_cases hmem : n - 1 ∈ doneIndices n d
      · rw [if_pos hmem] at hx'
        simp at hx'
      · rw [if_neg hmem] at hx'
        simp at hx'
        omega
  · rw [List.pairwise_append]
    refine ⟨hsorti, ?_, ?_⟩
    · by_cases hmem : n - 1 ∈ doneIndices n d
      · rw [if_pos hmem]
        simp
      · rw [if_neg hmem]
        simp
    · intro x hx y hy
      by_cases hmem : n - 1 ∈ doneIndices n d
      · rw [if_pos hmem] at hy
        simp at hy
      · rw [if_neg hmem] at hy
        simp at hy
        obtain ⟨s, hs, rfl⟩ := List.mem_map.mp hx
        have hslt := hlt s hs
        have hsne : s ≠ n - 1 := fun hc => hmem (hc ▸ hs)
        omega

lemma boundaries_getLast? (n : Nat) (d : Nat → Bool) (hn : 1 ≤ n) (hd : d n = false) :
    (boundaries n d).getLast? = some ((n : Int) - 1) := by
  rw [boundaries_eq n d hn hd]
  by_cases hmem : n - 1 ∈ doneIndices n d
  · rw [if_pos hmem]
    have hne : doneIndices n d ≠ [] := List.ne_nil_of_mem hmem
    have hmapne : (doneIndices n d).map (fun (s : Nat) => (s : Int)) ≠ [] := by
      intro hc
      exact hne (List.map_eq_nil_iff.mp hc)
    have hlt : ∀ s ∈ doneIndices n d, s < n :=
      fun s hs => ((mem_doneIndices hd s).mp hs).1
    have hmax : ∀ x ∈ doneIndices n d, x ≤ n - 1 := by
      intro x hx
      have := hlt x hx
      omega
    have hlastval : (doneIndices n d).getLast hne = n - 1 :=
      getLast_of_sorted_max _ (doneIndices_sorted n d) (n - 1) hmem hmax hne
    rw [List.append_nil, List.getLast?_eq_getLast _ (List.cons_ne_nil _ _),
      List.getLast_cons hmapne, getLast_map_ofNat _ hne hmapne, hlastval]
    congr 1
    omega
  · rw [if_neg hmem, ← List.cons_append, List.getLast?_concat]

lemma countP_flatMap {α β : Type} (p : β → Bool) (f : α → List β) (l : List α) :
    (l.flatMap f).countP p = (l.map (fun x => (f x).countP p)).sum := by
  induction l with
  | nil => simp
  | cons a t ih => simp [List.flatMap_cons, List.countP_append, ih]

lemma sum_map_const {α : Type} (l : List α) (c : Nat) :
    (l.map (fun _ => c)).sum = l.length * c := by
  induction l with
  | nil => simp
  | cons a t ih => simp [ih, Nat.succ_mul, Nat.add_comm]

lemma pyRangeStep_length (n k : Nat) (hk : 0 < k) (hdvd : k ∣ n) :
    (pyRangeStep n k).length = n / k := by
  obtain ⟨m, rfl⟩ := hdvd
  unfold pyRangeStep
  rw [List.length_map, List.length_range]
  have h1 : k * m + k - 1 = (k - 1) + k * m := by omega
  rw [h1, Nat.add_mul_div_left _ _ hk, Nat.div_eq_of_lt (by omega),
    Nat.mul_div_cancel_left _ hk]
  omega

lemma chunkEvents_count_optim (mb k : Nat) (c : Bool) :
    (chunkEvents mb k c).count TrainEvent.optimStep = 1 := by
  have h1 : ((List.range k).map
      (fun g => TrainEvent.backward (mb + g) (!(decide (g < k - 1))))).count
        TrainEvent.optimStep = 0 := by
    refine List.count_eq_zero.mpr ?_
    intro hmem
    obtain ⟨g, -, hg⟩ := List.mem_map.mp hmem
    exact absurd hg (by simp)
  cases c <;>
    simp [chunkEvents, List.count_append, h1, List.count_cons, List.count_nil]

lemma chunkEvents_countP_backward (mb k : Nat) (c : Bool) :
    (chunkEvents mb k c).countP isBackward = k := by
  have h1 : ((List.range k).map
      (fun g => TrainEvent.backward (mb + g) (!(decide (g < k - 1))))).countP
        isBackward = k := by
    rw [List.countP_map]
    calc (List.range k).countP
          (isBackward ∘ fun g => TrainEvent.backward (mb + g) (!(decide (g < k - 1))))
        = (List.range k).length :=
          List.countP_eq_length.mpr (fun g _ => by simp [isBackward])
      _ = k := List.length_range k
  cases c <;>
    simp [chunkEvents, List.countP_append, h1, List.countP_cons, isBackward]

lemma chunkEvents_countP_synced (mb k : Nat) (c : Bool) (hk : 0 < k) :
    (chunkEvents mb k c).countP isSyncedBackward = 1 := by
  have h1 : ((List.range k).map
      (fun g => TrainEvent.backward (mb + g) (!(decide (g < k - 1))))).countP
        isSyncedBackward = 1 := by
    rw [List.countP_map]
    have hsplit : List.range k = List.range (k - 1) ++ [k - 1] := by
      have : k = (k - 1) + 1 := by omega
      rw [this, List.range_succ]
      simp
    rw [hsplit, List.countP_append]
    have hz : (List.range (k - 1)).countP
        (isSyncedBackward ∘ fun g => TrainEvent.backward (mb + g) (!(decide (g < k - 1))))
          = 0 := by
      refine List.countP_eq_zero.mpr ?_
      intro g hg
      rw [List.mem_range] at hg
      simp [isSyncedBackward, hg]
    rw [hz]
    simp [isSyncedBackward]
  cases c <;>
    simp [chunkEvents, List.countP_append, h1, List.countP_cons, isSyncedBackward]

lemma count_flatMap {α β : Type} [BEq β] (a : β) (f : α → List β) (l : List α) :
    (l.flatMap f).count a = (l.map (fun x => (f x).count a)).sum := by
  induction l with
  | nil => simp
  | cons x t ih => simp [List.flatMap_cons, List.count_append, ih]

lemma getD_replicate {α : Type} (a d : α) (n i : Nat) :
    (List.replicate n a).getD i d = if i < n then a else d := by
  rcases Nat.lt_or_ge i n with h | h
  · simp [List.getD_eq_getElem?_getD, List.getElem?_replicate, h]
  · rw [if_neg (by omega), List.getD_eq_getElem?_getD,
      List.getElem?_eq_none (by simpa using h)]
    rfl

lemma map_eq_self_of {α : Type} (f : α → α) (l : List α) (h : ∀ x ∈ l, f x = x) :
    l.map f = l := by
  induction l with
  | nil => rfl
  | cons a t ih =>
      simp only [List.map_cons, h a (by simp),
        ih (fun x hx => h x (List.mem_cons_of_mem _ hx))]

lemma lookup_eq_none_of_not_mem {β : Type} (k : String) :
    ∀ sd : List (String × β), k ∉ sd.map Prod.fst → List.lookup k sd = none := by
  intro sd
  induction sd with
  | nil => intro _; rfl
  | cons q tl ih =>
      intro h
      obtain ⟨k', v⟩ := q
      simp only [List.map_cons, List.mem_cons, not_or] at h
      rw [List.lookup_cons]
      have hbeq : (k == k') = false := by simpa using h.1
      rw [hbeq]
      exact ih h.2

/-- Looking a parameter's key up in the trainable-only state dict finds
its value exactly when the parameter is trainable (keys are unique in a
PyTorch state dict). -/
lemma lookup_filtered :
    ∀ params : List (String × Int × Bool), (params.map Prod.fst).Nodup →
      ∀ p ∈ params,
        List.lookup p.1 ((params.filter (fun q => q.2.2)).map (fun q => (q.1, q.2.1)))
          = if p.2.2 then some p.2.1 else none := by
  intro params
  induction params with
  | nil =>
      intro _ p hp
      simp at hp
  | cons q rest ih =>
      intro hnodup p hp
      rw [List.map_cons, List.nodup_cons] at hnodup
      obtain ⟨hq1, hndrest⟩ := hnodup
      rcases List.mem_cons.mp hp with rfl | hp'
      · by_cases hg : p.2.2
        · rw [List.filter_cons_of_pos (by simpa using hg), List.map_cons,
            List.lookup_cons]
          simp [hg]
        · rw [List.filter_cons_of_neg (by simpa using hg), if_neg hg]
          apply lookup_eq_none_of_not_mem
          intro hmem
          rw [List.map_map] at hmem
          obtain ⟨q', hq'mem, hq'key⟩ := List.mem_map.mp hmem
          have hq'rest : q' ∈ rest := (List.mem_filter.mp hq'mem).1
          apply hq1
          have : q'.1 = p.1 := hq'key
          exact this ▸ List.mem_map_of_mem Prod.fst hq'rest
      · have hkey : p.1 ∈ rest.map Prod.fst := List.mem_map_of_mem _ hp'
        have hne : p.1 ≠ q.1 := fun hc => hq1 (hc ▸ hkey)
        by_cases hg : q.2.2
        · rw [List.filter_cons_of_pos (by simpa using hg), List.map_cons,
            List.lookup_cons]
          have hbeq : (p.1 == q.1) = false := by simpa using hne
          rw [hbeq]
          exact ih hndrest p hp'
        · rw [List.filter_cons_of_neg (by simpa using hg)]
          exact ih hndrest p hp'

end LmNav

namespace LmNavThm

open LmNav

/-- C4.  With the cursor in its in-horizon range `0 ≤ current_step_idx <
max_steps`, `insert` succeeds, writes `next_rgbs`/`next_goals` into
column `current_step_idx + 1`, writes each provided optional argument
(and only the provided ones) into column `current_step_idx` of its
buffer, increments the cursor by exactly one, and leaves every other
slot of every buffer unchanged (the `setCol` equations fix every slot of
the resulting buffers). -/
theorem insert_step_effect (st : RolloutStorage)
    (nr ng : Nat → Int) (da : Option (Nat → Bool)) (aa : Option (Nat → Int))
    (ra : Option (Nat → Int)) (sa : Option (Nat → Bool))
    (h0 : 0 ≤ st.current_step_idx) (h1 : st.current_step_idx < (st.max_steps : Int)) :
    (st.insert nr ng da aa ra sa).2 = none ∧
    (st.insert nr ng da aa ra sa).1.current_step_idx = st.current_step_idx + 1 ∧
    (st.insert nr ng da aa ra sa).1.rgbs
      = setCol st.rgbs (st.current_step_idx + 1).toNat nr ∧
    (st.insert nr ng da aa ra sa).1.goals
      = setCol st.goals (st.current_step_idx + 1).toNat ng ∧
    (st.insert nr ng da aa ra sa).1.dones
      = da.elim st.dones (fun d => setCol st.dones st.current_step_idx.toNat d) ∧
    (st.insert nr ng da aa ra sa).1.actions
      = aa.elim st.actions (fun a => setCol st.actions st.current_step_idx.toNat a) ∧
    (st.insert nr ng da aa ra sa).1.rewards
      = ra.elim st.rewards (fun r => setCol st.rewards st.current_step_idx.toNat r) ∧
    (st.insert nr ng da aa ra sa).1.successes
      = sa.elim st.successes (fun sc => setCol st.successes st.current_step_idx.toNat sc) ∧
    (st.insert nr ng da aa ra sa).1.max_steps = st.max_steps ∧
    (st.insert nr ng da aa ra sa).1.num_envs = st.num_envs := by
  have hnext : pyIndex (st.max_steps + 1) (st.current_step_idx + 1)
      = some ((st.current_step_idx + 1).toNat) :=
    pyIndex_of_nonneg (by omega) (by push_cast; omega)
  have hcur1 : pyIndex (st.max_steps + 1) st.current_step_idx
      = some st.current_step_idx.toNat :=
    pyIndex_of_nonneg h0 (by push_cast; omega)
  have hcur2 : pyIndex st.max_steps st.current_step_idx
      = some st.current_step_idx.toNat :=
    pyIndex_of_nonneg h0 h1
  cases da <;> cases aa <;> cases ra <;> cases sa <;>
    simp [RolloutStorage.insert, writeObs, writeDones, writeSuccesses,
      writeRewards, writeActions, andThen, hnext, hcur1, hcur2]

/-- Witness for C4 at `sampleStorage` (cursor `0`, `max_steps = 3`). -/
theorem insert_step_effect_witness :
    (sampleStorage.insert (fun _ => 7) (fun _ => 8)
        (some fun _ => true) (some fun _ => 4) none none).2 = none ∧
    (sampleStorage.insert (fun _ => 7) (fun _ => 8)
        (some fun _ => true) (some fun _ => 4) none none).1.current_step_idx
      = sampleStorage.current_step_idx + 1 ∧
    (sampleStorage.insert (fun _ => 7) (fun _ => 8)
        (some fun _ => true) (some fun _ => 4) none none).1.rgbs
      = setCol sampleStorage.rgbs (sampleStorage.current_step_idx + 1).toNat (fun _ => 7) := by
  have h := insert_step_effect sampleStorage (fun _ => 7) (fun _ => 8)
    (some fun _ => true) (some fun _ => 4) none none
    (by decide) (by decide)
  exact ⟨h.1, h.2.1, h.2.2.1⟩

/-- C6.  Calling `insert` when the cursor already equals `max_steps`
fails with an `IndexError` (the first statement indexes column
`max_steps + 1` of a dimension of size `max_steps + 1`) and the state is
returned unmodified: nothing was written before the failing statement. -/
theorem insert_overrun_fatal (st : RolloutStorage)
    (nr ng : Nat → Int) (da : Option (Nat → Bool)) (aa : Option (Nat → Int))
    (ra : Option (Nat → Int)) (sa : Option (Nat → Bool))
    (h : st.current_step_idx = (st.max_steps : Int)) :
    st.insert nr ng da aa ra sa = (st, some "IndexError: rgbs/goals") := by
  have hoob : pyIndex (st.max_steps + 1) (st.current_step_idx + 1) = none :=
    pyIndex_oob_high (by push_cast; omega)
  simp [RolloutStorage.insert, writeObs, andThen, hoob]

/-- Witness for C6: a full storage (cursor `3 = max_steps`). -/
theorem insert_overrun_fatal_witness :
    ({ sampleStorage with current_step_idx := 3 } : RolloutStorage).insert
        (fun _ => 7) (fun _ => 8) none none none none
      = ({ sampleStorage with current_step_idx := 3 }, some "IndexError: rgbs/goals") :=
  insert_overrun_fatal { sampleStorage with current_step_idx := 3 }
    (fun _ => 7) (fun _ => 8) none none none none (by decide)

/-- C7.  `reset()` copies, for every environment, the `rgbs`/`goals`
values at index `max_steps` into index `0`, sets the cursor to `0`, and
changes nothing else: `rgbs`/`goals` at every non-zero index, and the
whole `actions`, `dones`, `rewards` and `successes` buffers, are
unchanged. -/
theorem reset_effect (st : RolloutStorage) (e s : Nat) (hs : s ≠ 0) :
    st.reset.rgbs e 0 = st.rgbs e st.max_steps ∧
    st.reset.goals e 0 = st.goals e st.max_steps ∧
    st.reset.current_step_idx = 0 ∧
    st.reset.rgbs e s = st.rgbs e s ∧
    st.reset.goals e s = st.goals e s ∧
    st.reset.actions = st.actions ∧
    st.reset.dones = st.dones ∧
    st.reset.rewards = st.rewards ∧
    st.reset.successes = st.successes ∧
    st.reset.max_steps = st.max_steps ∧
    st.reset.num_envs = st.num_envs := by
  simp [RolloutStorage.reset, setCol, hs]

/-- Witness for C7 at `sampleStorage`, environment `0`, untouched index `2`. -/
theorem reset_effect_witness :
    sampleStorage.reset.rgbs 0 0 = sampleStorage.rgbs 0 sampleStorage.max_steps ∧
    sampleStorage.reset.goals 0 0 = sampleStorage.goals 0 sampleStorage.max_steps ∧
    sampleStorage.reset.current_step_idx = 0 ∧
    sampleStorage.reset.rgbs 0 2 = sampleStorage.rgbs 0 2 := by
  have h := reset_effect sampleStorage 0 2 (by decide)
  exact ⟨h.1, h.2.1, h.2.2.1, h.2.2.2.1⟩

/-- C10.  A freshly constructed `RolloutStorage` has cursor `-1`, so the
first `insert` writes the observations at index `0` but routes every
provided `dones`/`actions`/`rewards` argument to index `-1`, i.e. the
last slot `max_steps` of its buffer, and `successes` (whose buffer is one
shorter) to slot `max_steps - 1`, by Python negative indexing; nothing is
rejected. -/
theorem first_insert_negative_indexing (ne ms : Nat) (dev : String)
    (nr ng : Nat → Int) (d : Nat → Bool) (a rw : Nat → Int) (sc : Nat → Bool)
    (hms : 1 ≤ ms) :
    (RolloutStorage.mk0 ne ms dev).current_step_idx = -1 ∧
    ((RolloutStorage.mk0 ne ms dev).insert nr ng (some d) (some a) (some rw) (some sc)).2
      = none ∧
    ((RolloutStorage.mk0 ne ms dev).insert nr ng (some d) (some a) (some rw) (some sc)).1.current_step_idx
      = 0 ∧
    ((RolloutStorage.mk0 ne ms dev).insert nr ng (some d) (some a) (some rw) (some sc)).1.rgbs
      = setCol (RolloutStorage.mk0 ne ms dev).rgbs 0 nr ∧
    ((RolloutStorage.mk0 ne ms dev).insert nr ng (some d) (some a) (some rw) (some sc)).1.goals
      = setCol (RolloutStorage.mk0 ne ms dev).goals 0 ng ∧
    ((RolloutStorage.mk0 ne ms dev).insert nr ng (some d) (some a) (some rw) (some sc)).1.dones
      = setCol (RolloutStorage.mk0 ne ms dev).dones ms d ∧
    ((RolloutStorage.mk0 ne ms dev).insert nr ng (some d) (some a) (some rw) (some sc)).1.actions
      = setCol (RolloutStorage.mk0 ne ms dev).actions ms a ∧
    ((RolloutStorage.mk0 ne ms dev).insert nr ng (some d) (some a) (some rw) (some sc)).1.rewards
      = setCol (RolloutStorage.mk0 ne ms dev).rewards ms rw ∧
    ((RolloutStorage.mk0 ne ms dev).insert nr ng (some d) (some a) (some rw) (some sc)).1.successes
      = setCol (RolloutStorage.mk0 ne ms dev).successes (ms - 1) sc := by
  have hnext : pyIndex (ms + 1) (0 : Int) = some 0 := by
    rw [pyIndex_of_nonneg (by omega) (by push_cast; omega)]
    rfl
  have hcur1 : pyIndex (ms + 1) (-1 : Int) = some ms := by
    rw [pyIndex_of_neg (by omega) (by push_cast; omega)]
    congr 1
    omega
  have hcur2 : pyIndex ms (-1 : Int) = some (ms - 1) := by
    rw [pyIndex_of_neg (by omega) (by omega)]
    congr 1
    omega
  simp [RolloutStorage.insert, RolloutStorage.mk0, writeObs, writeDones,
    writeSuccesses, writeRewards, writeActions, andThen, hnext, hcur1, hcur2]

/-- Witness for C10 with `max_steps = 3`. -/
theorem first_insert_negative_indexing_witness :
    (RolloutStorage.mk0 2 3 "cuda:0").current_step_idx = -1 ∧
    ((RolloutStorage.mk0 2 3 "cuda:0").insert (fun _ => 7) (fun _ => 8)
        (some fun _ => true) (some fun _ => 4) (some fun _ => 1) (some fun _ => true)).2
      = none ∧
    ((RolloutStorage.mk0 2 3 "cuda:0").insert (fun _ => 7) (fun _ => 8)
        (some fun _ => true) (some fun _ => 4) (some fun _ => 1) (some fun _ => true)).1.current_step_idx
      = 0 := by
  have h := first_insert_negative_indexing 2 3 "cuda:0" (fun _ => 7) (fun _ => 8)
    (fun _ => true) (fun _ => 4) (fun _ => 1) (fun _ => true) (by decide)
  exact ⟨h.1, h.2.1, h.2.2.1⟩

/-- C1.  For an environment `b` of a storage with `max_steps ≥ 1` whose
done flags live in `[0, max_steps - 1]` (slot `max_steps` clear), the
segment list computed by `generate_samples` is exactly the consecutive
pairs of `-1 :: doneIndices ++ [max_steps - 1]` (the final boundary
appended only when `max_steps - 1` is not itself a done index); the done
indices are strictly increasing and `< max_steps`; zero done entries
give the single segment `(-1, max_steps - 1]`; `k` done entries none of
which is `max_steps - 1` give `k + 1` segments; and the segments cover
`[0, max_steps - 1]` exactly, without overlap, contiguously. -/
theorem generate_samples_segmentation (st : RolloutStorage) (b : Nat)
    (hn : 1 ≤ st.max_steps) (hd : st.dones b st.max_steps = false) :
    (∀ s, s ∈ doneIndices st.max_steps (st.dones b) ↔
        (s < st.max_steps ∧ st.dones b s = true)) ∧
    (doneIndices st.max_steps (st.dones b)).Pairwise (· < ·) ∧
    segmentsFor st b
      = chainPairs ((-1 : Int) ::
          ((doneIndices st.max_steps (st.dones b)).map (fun (s : Nat) => (s : Int))
            ++ (if st.max_steps - 1 ∈ doneIndices st.max_steps (st.dones b) then []
                else [((st.max_steps : Int) - 1)]))) ∧
    (doneIndices st.max_steps (st.dones b) = [] →
      segmentsFor st b = [((-1 : Int), (st.max_steps : Int) - 1)]) ∧
    (st.max_steps - 1 ∉ doneIndices st.max_steps (st.dones b) →
      (segmentsFor st b).length = (doneIndices st.max_steps (st.dones b)).length + 1) ∧
    (∀ j : Int, (0 ≤ j ∧ j < (st.max_steps : Int)) ↔
      ∃ p ∈ segmentsFor st b, p.1 < j ∧ j ≤ p.2) ∧
    (segmentsFor st b).Pairwise (fun p q : Int × Int => p.2 ≤ q.1) ∧
    List.Chain' (fun p q : Int × Int => p.2 = q.1) (segmentsFor st b) := by
  have hbe := boundaries_eq st.max_steps (st.dones b) hn hd
  obtain ⟨rest, hrest⟩ : ∃ rest, boundaries st.max_steps (st.dones b) = (-1 : Int) :: rest :=
    ⟨_, hbe⟩
  have hsorted := boundaries_sorted st.max_steps (st.dones b) hn hd
  have hglopt := boundaries_getLast? st.max_steps (st.dones b) hn hd
  rw [hrest] at hsorted hglopt
  have hglval : ((-1 : Int) :: rest).getLast (List.cons_ne_nil _ _)
      = (st.max_steps : Int) - 1 := by
    rw [List.getLast?_eq_getLast _ (List.cons_ne_nil _ _)] at hglopt
    exact Option.some.inj hglopt
  have hsegs : segmentsFor st b = chainPairs ((-1 : Int) :: rest) := by
    unfold segmentsFor segmentsOf
    rw [hrest]
  refine ⟨fun s => mem_doneIndices hd s, doneIndices_sorted _ _, ?_, ?_, ?_, ?_, ?_, ?_⟩
  · rw [hsegs, ← hrest, hbe]
  · intro hds
    rw [hsegs, ← hrest, hbe, hds]
    simp [chainPairs]
  · intro hmem
    rw [hsegs, chainPairs_length, ← hrest, hbe, if_neg hmem]
    simp
  · intro j
    have hcov := chainPairs_cover j rest (-1) hsorted
    rw [hglval] at hcov
    rw [hsegs]
    constructor
    · rintro ⟨h0, h1⟩
      exact hcov.mpr ⟨by omega, by omega⟩
    · intro hex
      have h2 := hcov.mp hex
      exact ⟨by omega, by omega⟩
  · rw [hsegs]
    exact chainPairs_disjoint _ hsorted
  · rw [hsegs]
    exact chainPairs_chained _

/-- Witness for C1 at `sampleStorage` (`max_steps = 3`, one done flag at
step `1` in every environment). -/
theorem generate_samples_segmentation_witness :
    (∀ j : Int, (0 ≤ j ∧ j < (sampleStorage.max_steps : Int)) ↔
      ∃ p ∈ segmentsFor sampleStorage 0, p.1 < j ∧ j ≤ p.2) ∧
    (segmentsFor sampleStorage 0).Pairwise (fun p q : Int × Int => p.2 ≤ q.1) := by
  have h := generate_samples_segmentation sampleStorage 0 (by decide) (by decide)
  exact ⟨h.2.2.2.2.2.1, h.2.2.2.2.2.2.1⟩

/-- C8 (code bug).  At a storage whose buffers live on `"cuda:0"`,
`to_cpu()` leaves the state — device residency included — completely
unchanged: the `map(...)` object built in its body is lazy and
discarded, so the claimed relocation to host memory never happens (the
content/shape/cursor no-op half of the claim does hold, trivially). -/
theorem to_cpu_does_not_relocate :
    sampleStorage.to_cpu = sampleStorage ∧
    sampleStorage.to_cpu.device = "cuda:0" ∧
    sampleStorage.to_cpu.device ≠ "cpu" := by
  refine ⟨rfl, rfl, ?_⟩
  simp [RolloutStorage.to_cpu, sampleStorage]

/-- C2 counterexample.  With `batch_size = 16`, `minibatch_size = 4`,
`num_grad_accums = 2` (so `16 / 4 = 4` minibatches), the loop of
`train_bc_step` performs two optimizer steps — one per accumulation
chunk — not one for the whole batch. -/
theorem one_optim_step_per_batch_refuted :
    (train_bc_step_events (16 / 4) 2 false).count TrainEvent.optimStep = 2 ∧
    (train_bc_step_events (16 / 4) 2 false).count TrainEvent.optimStep ≠ 1 := by
  constructor <;> decide

/-- C2 (amended).  For a validated configuration, `train_bc_step`
performs exactly one optimizer step per accumulation chunk of
`num_grad_accums` minibatches — `num_minibatches / num_grad_accums`
steps per batch — with one synchronized backward per chunk and every
minibatch processed once; at `batch_size = 16`, `minibatch_size = 4`,
`num_grad_accums = 2` the trace is 4 minibatches in 2 chunks of 2, with
2 unsynchronized and 2 synchronized backward calls and 2 optimizer
steps. -/
theorem grad_accum_step_counts (n k : Nat) (c : Bool) (hk : 0 < k) (hdvd : k ∣ n) :
    (train_bc_step_events n k c).count TrainEvent.optimStep = n / k ∧
    (train_bc_step_events n k c).countP isBackward = n ∧
    (train_bc_step_events n k c).countP isSyncedBackward = n / k ∧
    train_bc_step_events (16 / 4) 2 false
      = [TrainEvent.backward 0 false, TrainEvent.backward 1 true,
         TrainEvent.optimStep, TrainEvent.zeroGrad,
         TrainEvent.backward 2 false, TrainEvent.backward 3 true,
         TrainEvent.optimStep, TrainEvent.zeroGrad] := by
  refine ⟨?_, ?_, ?_, by decide⟩
  · unfold train_bc_step_events
    rw [count_flatMap]
    rw [List.map_congr_left (fun mb _ => chunkEvents_count_optim mb k c)]
    rw [sum_map_const, pyRangeStep_length n k hk hdvd]
    omega
  · unfold train_bc_step_events
    rw [countP_flatMap]
    rw [List.map_congr_left (fun mb _ => chunkEvents_countP_backward mb k c)]
    rw [sum_map_const, pyRangeStep_length n k hk hdvd]
    exact Nat.div_mul_cancel hdvd
  · unfold train_bc_step_events
    rw [countP_flatMap]
    rw [List.map_congr_left (fun mb _ => chunkEvents_countP_synced mb k c hk)]
    rw [sum_map_const, pyRangeStep_length n k hk hdvd]
    omega

/-- Witness for the amended C2 at the spec's example configuration. -/
theorem grad_accum_step_counts_witness :
    (train_bc_step_events 4 2 false).count TrainEvent.optimStep = 4 / 2 ∧
    (train_bc_step_events 4 2 false).countP isBackward = 4 ∧
    (train_bc_step_events 4 2 false).countP isSyncedBackward = 4 / 2 := by
  have h := grad_accum_step_counts 4 2 false (by decide) (by decide)
  exact ⟨h.1, h.2.1, h.2.2.1⟩

/-- C3.  For an episode slice of length `L ≤ T` (actions and frames have
the same length), the mask built by `train_bc_step` has length `T` and
is `true` exactly at the first `L` positions, and the padded frame and
action sequences have length `T`, keep the episode values in the first
`L` positions, and are exactly zero at every padded position. -/
theorem sequence_mask_padding (T L : Nat) (frames acts : List Int)
    (hfl : frames.length = L) (hal : acts.length = L) (hLT : L ≤ T) :
    (mask_t T L).length = T ∧
    (∀ i : Nat, (mask_t T L).getD i false = true ↔ i < L) ∧
    (pad_seq T frames).length = T ∧
    (pad_seq T frames).take L = frames ∧
    (pad_seq T frames).drop L = List.replicate (T - L) 0 ∧
    (pad_seq T acts).length = T ∧
    (pad_seq T acts).take L = acts ∧
    (pad_seq T acts).drop L = List.replicate (T - L) 0 := by
  refine ⟨?_, ?_, ?_, ?_, ?_, ?_, ?_, ?_⟩
  · simp [mask_t]
    omega
  · intro i
    unfold mask_t
    rcases Nat.lt_or_ge i L with h | h
    · rw [List.getD_append _ _ _ _ (by simpa using h)]
      rw [getD_replicate]
      simp [h]
    · rw [List.getD_append_right _ _ _ _ (by simpa using h)]
      rw [getD_replicate]
      simp
      omega
  · simp [pad_seq, hfl]
    omega
  · show (frames ++ _).take L = frames
    rw [← hfl]
    exact List.take_left _ _
  · show (frames ++ _).drop L = _
    rw [← hfl]
    rw [List.drop_left]
  · simp [pad_seq, hal]
    omega
  · show (acts ++ _).take L = acts
    rw [← hal]
    exact List.take_left _ _
  · show (acts ++ _).drop L = _
    rw [← hal]
    rw [List.drop_left]

/-- Witness for C3 with `T = 5` and an episode of length `3`. -/
theorem sequence_mask_padding_witness :
    (mask_t 5 3).length = 5 ∧
    (pad_seq 5 [7, 8, 9]).take 3 = [7, 8, 9] ∧
    (pad_seq 5 [7, 8, 9]).drop 3 = List.replicate (5 - 3) 0 ∧
    (pad_seq 5 [1, 2, 3]).drop 3 = List.replicate (5 - 3) 0 := by
  have h := sequence_mask_padding 5 3 [7, 8, 9] [1, 2, 3] rfl rfl (by decide)
  exact ⟨h.1, h.2.2.2.1, h.2.2.2.2.1, h.2.2.2.2.2.2.2⟩

/-- C9.  For positive `minibatch_size` and `num_grad_accums`,
`validate_config` (invoked first by `initialize_train`) returns normally
exactly when `minibatch_size` divides `batch_size` and `num_grad_accums`
divides the number of minibatches `batch_size / minibatch_size`; in
every other case it raises. -/
theorem validate_config_ok_iff (b m a : Nat) (hm : 0 < m) (ha : 0 < a) :
    validate_config b m a = Except.ok () ↔ (m ∣ b ∧ a ∣ b / m) := by
  unfold validate_config
  rw [if_neg (by omega)]
  by_cases h1 : b % m = 0
  · rw [if_neg (by omega), if_neg (by omega)]
    by_cases h2 : b / m % a = 0
    · rw [if_neg (by omega)]
      simp [Nat.dvd_iff_mod_eq_zero, h1, h2]
    · rw [if_pos (by omega)]
      simp [Nat.dvd_iff_mod_eq_zero, h1, h2]
  · rw [if_pos (by omega)]
    simp [Nat.dvd_iff_mod_eq_zero, h1]

/-- Witness for C9 at the valid configuration `16 / 4 / 2`. -/
theorem validate_config_ok_iff_witness :
    validate_config 16 4 2 = Except.ok () ∧ 4 ∣ 16 ∧ 2 ∣ 16 / 4 := by
  have h := validate_config_ok_iff 16 4 2 (by decide) (by decide)
  exact ⟨h.mpr ⟨by decide, by decide⟩, by decide, by decide⟩

/-- C5.  For a trainer whose parameter names are unique and whose
cumulative stats agree with the live `step`/`epoch` counters (the train
loop updates the stats before every save), `save_checkpoint` omits every
non-trainable parameter key from the saved weights, keeps every
trainable parameter's value, and saves optimizer, scheduler, sampler,
config and stats; `load_checkpoint` of that artifact restores the
parameters, optimizer, scheduler and sampler states exactly, restores
the stats verbatim and rehydrates `step`/`epoch` from them — so the
round trip reproduces `step`, `epoch`, `total_frames` and the sampler
cursor. -/
theorem checkpoint_roundtrip (tr : TrainerState)
    (hnodup : (tr.params.map Prod.fst).Nodup)
    (hstep : tr.cumstats.step = tr.step) (hepoch : tr.cumstats.epoch = tr.epoch) :
    (∀ p ∈ tr.params, p.2.2 = false →
      List.lookup p.1 (save_checkpoint tr).model = none) ∧
    (∀ p ∈ tr.params, p.2.2 = true →
      List.lookup p.1 (save_checkpoint tr).model = some p.2.1) ∧
    (save_checkpoint tr).optimizer = tr.optim_state ∧
    (save_checkpoint tr).lr_sched = tr.lr_sched_state ∧
    (save_checkpoint tr).sampler = tr.sampler_state ∧
    (save_checkpoint tr).config = tr.config_snapshot ∧
    (save_checkpoint tr).stats = tr.cumstats ∧
    (load_checkpoint tr (save_checkpoint tr)).params = tr.params ∧
    (load_checkpoint tr (save_checkpoint tr)).optim_state = tr.optim_state ∧
    (load_checkpoint tr (save_checkpoint tr)).lr_sched_state = tr.lr_sched_state ∧
    (load_checkpoint tr (save_checkpoint tr)).sampler_state = tr.sampler_state ∧
    (load_checkpoint tr (save_checkpoint tr)).cumstats = tr.cumstats ∧
    (load_checkpoint tr (save_checkpoint tr)).step = tr.step ∧
    (load_checkpoint tr (save_checkpoint tr)).epoch = tr.epoch ∧
    (load_checkpoint tr (save_checkpoint tr)).cumstats.total_frames
      = tr.cumstats.total_frames := by
  have hlook := lookup_filtered tr.params hnodup
  have hparams : (load_checkpoint tr (save_checkpoint tr)).params = tr.params := by
    show load_state_dict_nonstrict tr.params (save_checkpoint tr).model = tr.params
    unfold load_state_dict_nonstrict
    apply map_eq_self_of
    intro p hp
    have h := hlook p hp
    by_cases hg : p.2.2
    · rw [if_pos hg] at h
      rw [show (save_checkpoint tr).model
          = (tr.params.filter (fun q => q.2.2)).map (fun q => (q.1, q.2.1)) from rfl,
        h]
    · rw [if_neg hg] at h
      rw [show (save_checkpoint tr).model
          = (tr.params.filter (fun q => q.2.2)).map (fun q => (q.1, q.2.1)) from rfl,
        h]
  refine ⟨?_, ?_, rfl, rfl, rfl, rfl, rfl, hparams, rfl, rfl, rfl, rfl, ?_, ?_, rfl⟩
  · intro p hp hpg
    have h := hlook p hp
    rw [if_neg (by rw [hpg]; simp)] at h
    exact h
  · intro p hp hpg
    have h := hlook p hp
    rw [if_pos hpg] at h
    exact h
  · show (save_checkpoint tr).stats.step = tr.step
    exact hstep
  · show (save_checkpoint tr).stats.epoch = tr.epoch
    exact hepoch

/-- Witness for C5 at `sampleTrainer` (one frozen parameter). -/
theorem checkpoint_roundtrip_witness :
    (load_checkpoint sampleTrainer (save_checkpoint sampleTrainer)).step
      = sampleTrainer.step ∧
    (load_checkpoint sampleTrainer (save_checkpoint sampleTrainer)).sampler_state
      = sampleTrainer.sampler_state ∧
    (load_checkpoint sampleTrainer (save_checkpoint sampleTrainer)).cumstats.total_frames
      = sampleTrainer.cumstats.total_frames ∧
    (load_checkpoint sampleTrainer (save_checkpoint sampleTrainer)).params
      = sampleTrainer.params := by
  have h := checkpoint_roundtrip sampleTrainer (by decide) (by decide) (by decide)
  exact ⟨h.2.2.2.2.2.2.2.2.2.2.2.2.1, h.2.2.2.2.2.2.2.2.2.2.1,
    h.2.2.2.2.2.2.2.2.2.2.2.2.2.2, h.2.2.2.2.2.2.2.1⟩

end LmNavThm
